import Mathlib

/-!
Verification of the BiasChannel layer of this repository
(`src/caffe/layers/bias_channel_layer.cpp`).

The data model is embedded shallowly.  A `Blob` is a 4-D tensor with
`num × channels × height × width` shape fields and flat `data` / `diff`
buffers modelled as functions from flat indices to rationals (the C++
`Dtype` values are treated as exact reals).  The external math primitives
`caffe_copy`, `caffe_add_scalar` and `caffe_gpu_add_scalar` (declared in
`caffe/util/math_functions.hpp`, outside this repository's source tree)
are modelled by their contracts: prefix copy, and scalar addition on a
contiguous range of the buffer.  Every fatal `CHECK` / `LOG(FATAL)`
condition is modelled by `Option`: `none` is a fatal abort.
-/

namespace BiasChannel

/-- The `BiasChannelParameter::LabelType` enum of the layer's configuration. -/
inductive LabelType
  | IMAGE
  | PIXEL
deriving DecidableEq

/-- A Caffe blob: 4-D shape plus flat `data` and `diff` buffers. -/
structure Blob where
  num : Nat
  channels : Nat
  height : Nat
  width : Nat
  data : Nat → ℚ
  diff : Nat → ℚ

/-- `Blob::count()`: total number of elements. -/
def Blob.count (b : Blob) : Nat := b.num * b.channels * b.height * b.width

/-- `Blob::offset(n, c, h, w)`: flat index of an element. -/
def Blob.offset (b : Blob) (n c h w : Nat) : Nat :=
  ((n * b.channels + c) * b.height + h) * b.width + w

/-- `static_cast<int>` applied to a real value: truncation toward zero
(C++ float-to-int conversion).  On a rational this is T-division of the
numerator by the denominator. -/
def truncInt (q : ℚ) : Int := Int.tdiv q.num q.den

/-- The `BiasChannelParameter` configuration message. -/
structure BiasChannelParam where
  bg_bias : ℚ
  fg_bias : ℚ
  label_type : LabelType
  ignore_label : List Int

/-- The layer object: configuration stored by `LayerSetUp` plus the shape
fields stored by `Reshape`.  `ignore_label_` is a `std::set<int>`, modelled
as a list used only through membership. -/
structure BiasChannelLayer where
  bg_bias_ : ℚ
  fg_bias_ : ℚ
  label_type : LabelType
  ignore_label_ : List Int
  num_ : Nat
  channels_ : Nat
  height_ : Nat
  width_ : Nat
  max_labels_ : Nat

/-- `BiasChannelLayer::LayerSetUp`: store the biases (fatal if negative,
`CHECK_GE(.., 0)`), and build the ignore set from the sentinel `-1`
plus the configured `ignore_label` list. -/
def LayerSetUp (p : BiasChannelParam) : Option BiasChannelLayer :=
  if 0 ≤ p.bg_bias ∧ 0 ≤ p.fg_bias then
    some { bg_bias_ := p.bg_bias
           fg_bias_ := p.fg_bias
           label_type := p.label_type
           ignore_label_ := (-1) :: p.ignore_label
           num_ := 0, channels_ := 0, height_ := 0, width_ := 0, max_labels_ := 0 }
  else none

/-- `BiasChannelLayer::Reshape`: read the activation shape, check the label
blob's shape against the label mode (each `CHECK_EQ`/`CHECK_GE` failure is
fatal), store the derived dimensions, and reshape the top blob to the
activation's shape. -/
def Reshape (L : BiasChannelLayer) (bottom0 bottom1 top : Blob) :
    Option (BiasChannelLayer × Blob) :=
  let num_ := bottom0.num
  let channels_ := bottom0.channels
  let height_ := bottom0.height
  let width_ := bottom0.width
  if bottom1.num = num_ then
    let max_labels_ := bottom1.channels
    if 1 ≤ max_labels_ then
      let ok : Bool :=
        match L.label_type with
        | LabelType.IMAGE => bottom1.height == 1 && bottom1.width == 1
        | LabelType.PIXEL =>
            bottom1.channels == 1 && bottom1.height == height_ && bottom1.width == width_
      if ok then
        some ({ L with num_ := num_, channels_ := channels_, height_ := height_,
                       width_ := width_, max_labels_ := max_labels_ },
              { top with num := num_, channels := channels_,
                         height := height_, width := width_ })
      else none
    else none
  else none

/-- Models `caffe_copy(count, src, dst)`: the first `count` entries of the
destination buffer are overwritten with the source's. -/
def caffe_copy (count : Nat) (src dst : Nat → ℚ) : Nat → ℚ :=
  fun i => if i < count then src i else dst i

/-- Models `caffe_add_scalar(count, alpha, y)` called on the buffer `f` at
starting position `start`: adds `alpha` to the `count` consecutive entries
beginning at `start`. -/
def caffe_add_scalar (count : Nat) (alpha : ℚ) (f : Nat → ℚ) (start : Nat) :
    Nat → ℚ :=
  fun i => if start ≤ i ∧ i < start + count then f i + alpha else f i

/-- Models `caffe_gpu_add_scalar`: same contract as `caffe_add_scalar`. -/
def caffe_gpu_add_scalar (count : Nat) (alpha : ℚ) (f : Nat → ℚ) (start : Nat) :
    Nat → ℚ :=
  fun i => if start ≤ i ∧ i < start + count then f i + alpha else f i

/-- A single in-place element update `buf[idx] += v`. -/
def addAt (f : Nat → ℚ) (idx : Nat) (v : ℚ) : Nat → ℚ :=
  fun i => if i = idx then f i + v else f i

/-- The label value the forward pass reads in IMAGE mode:
`static_cast<int>(*bottom[1]->cpu_data(n, j))`. -/
def imgLabel (bottom1 : Blob) (n j : Nat) : Int :=
  truncInt (bottom1.data (bottom1.offset n j 0 0))

/-- The label value the forward pass reads in PIXEL mode:
`static_cast<int>(label_data[j])` with `label_data = bottom[1]->cpu_data(n)`. -/
def pixLabel (bottom1 : Blob) (n p : Nat) : Int :=
  truncInt (bottom1.data (bottom1.offset n 0 0 0 + p))

/-- Body of the IMAGE-mode inner loop of `Forward_cpu` for sample `n`,
label slot `j`: skip ignored labels, add the bias to the whole spatial
slice of channel `label` if the label is in range, abort otherwise. -/
def imageStep (L : BiasChannelLayer) (bottom1 : Blob) (n j : Nat) (top : Blob) :
    Option Blob :=
  let label : Int := imgLabel bottom1 n j
  if label ∈ L.ignore_label_ then
    some top
  else if 0 ≤ label ∧ label < (L.channels_ : Int) then
    let bias : ℚ := if label = 0 then L.bg_bias_ else L.fg_bias_
    some { top with
      data := caffe_add_scalar (L.height_ * L.width_) bias top.data
                (top.offset n label.toNat 0 0) }
  else none

/-- IMAGE-mode inner loop of `Forward_cpu`: label slots `0, …, j-1` of
sample `n`, in order. -/
def imageInner (L : BiasChannelLayer) (bottom1 : Blob) (n : Nat) (top : Blob) :
    Nat → Option Blob
  | 0 => some top
  | j + 1 => (imageInner L bottom1 n top j).bind (imageStep L bottom1 n j)

/-- IMAGE-mode outer loop of `Forward_cpu`: samples `0, …, m-1`, each
running the inner loop over all `max_labels_` slots. -/
def imageLoop (L : BiasChannelLayer) (bottom1 : Blob) (top : Blob) :
    Nat → Option Blob
  | 0 => some top
  | m + 1 => (imageLoop L bottom1 top m).bind
      (fun t => imageInner L bottom1 m t L.max_labels_)

/-- Body of the PIXEL-mode inner loop of `Forward_cpu` for sample `n`,
spatial position `j`: skip ignored labels; a `0` label biases the
background entry; a label in `(0, channels_)` biases the background entry
and the corresponding foreground entry; anything else aborts. -/
def pixelStep (L : BiasChannelLayer) (bottom1 : Blob) (n j : Nat) (top : Blob) :
    Option Blob :=
  let spatial_dim := L.height_ * L.width_
  let label : Int := pixLabel bottom1 n j
  if label ∈ L.ignore_label_ then
    some top
  else if label = 0 then
    some { top with data := addAt top.data (top.offset n 0 0 0 + j) L.bg_bias_ }
  else if 0 < label ∧ label < (L.channels_ : Int) then
    let d1 := addAt top.data (top.offset n 0 0 0 + j) L.bg_bias_
    some { top with
      data := addAt d1 (top.offset n 0 0 0 + label.toNat * spatial_dim + j) L.fg_bias_ }
  else none

/-- PIXEL-mode inner loop of `Forward_cpu`: spatial positions `0, …, j-1`
of sample `n`, in order. -/
def pixelInner (L : BiasChannelLayer) (bottom1 : Blob) (n : Nat) (top : Blob) :
    Nat → Option Blob
  | 0 => some top
  | j + 1 => (pixelInner L bottom1 n top j).bind (pixelStep L bottom1 n j)

/-- PIXEL-mode outer loop of `Forward_cpu`: samples `0, …, m-1`, each
running the inner loop over all `height_ * width_` positions. -/
def pixelLoop (L : BiasChannelLayer) (bottom1 : Blob) (top : Blob) :
    Nat → Option Blob
  | 0 => some top
  | m + 1 => (pixelLoop L bottom1 top m).bind
      (fun t => pixelInner L bottom1 m t (L.height_ * L.width_))

/-- `BiasChannelLayer::Forward_cpu`: copy the activation into the top
buffer, then run the per-sample loop of the configured label mode. -/
def Forward_cpu (L : BiasChannelLayer) (bottom0 bottom1 top : Blob) :
    Option Blob :=
  let top0 : Blob := { top with data := caffe_copy bottom0.count bottom0.data top.data }
  match L.label_type with
  | LabelType.IMAGE => imageLoop L bottom1 top0 L.num_
  | LabelType.PIXEL => pixelLoop L bottom1 top0 L.num_

/-- Body of the IMAGE-mode inner loop of `Forward_gpu` (identical to the
CPU body except that it calls `caffe_gpu_add_scalar`). -/
def gpuImageStep (L : BiasChannelLayer) (bottom1 : Blob) (n j : Nat) (top : Blob) :
    Option Blob :=
  let label : Int := imgLabel bottom1 n j
  if label ∈ L.ignore_label_ then
    some top
  else if 0 ≤ label ∧ label < (L.channels_ : Int) then
    let bias : ℚ := if label = 0 then L.bg_bias_ else L.fg_bias_
    some { top with
      data := caffe_gpu_add_scalar (L.height_ * L.width_) bias top.data
                (top.offset n label.toNat 0 0) }
  else none

/-- IMAGE-mode inner loop of `Forward_gpu`. -/
def gpuImageInner (L : BiasChannelLayer) (bottom1 : Blob) (n : Nat) (top : Blob) :
    Nat → Option Blob
  | 0 => some top
  | j + 1 => (gpuImageInner L bottom1 n top j).bind (gpuImageStep L bottom1 n j)

/-- IMAGE-mode outer loop of `Forward_gpu`. -/
def gpuImageLoop (L : BiasChannelLayer) (bottom1 : Blob) (top : Blob) :
    Nat → Option Blob
  | 0 => some top
  | m + 1 => (gpuImageLoop L bottom1 top m).bind
      (fun t => gpuImageInner L bottom1 m t L.max_labels_)

/-- `BiasChannelLayer::Forward_gpu`: PIXEL mode delegates to `Forward_cpu`;
IMAGE mode copies the activation and runs the GPU per-slot scatter loop. -/
def Forward_gpu (L : BiasChannelLayer) (bottom0 bottom1 top : Blob) :
    Option Blob :=
  match L.label_type with
  | LabelType.PIXEL => Forward_cpu L bottom0 bottom1 top
  | LabelType.IMAGE =>
      let top0 : Blob := { top with data := caffe_copy bottom0.count bottom0.data top.data }
      gpuImageLoop L bottom1 top0 L.num_

/-- `BiasChannelLayer::Backward_cpu`: fatal if a gradient is requested on
the label input; otherwise, if requested, copy the top diff into the
activation's diff buffer. -/
def Backward_cpu (L : BiasChannelLayer) (top bottom0 : Blob)
    (propagate_down : List Bool) : Option Blob :=
  if propagate_down.getD 1 false then none
  else if propagate_down.getD 0 false then
    some { bottom0 with diff := caffe_copy bottom0.count top.diff bottom0.diff }
  else some bottom0

/-- `BiasChannelLayer::Backward_gpu`: identical logic to `Backward_cpu`. -/
def Backward_gpu (L : BiasChannelLayer) (top bottom0 : Blob)
    (propagate_down : List Bool) : Option Blob :=
  if propagate_down.getD 1 false then none
  else if propagate_down.getD 0 false then
    some { bottom0 with diff := caffe_copy bottom0.count top.diff bottom0.diff }
  else some bottom0

/-- The three blobs the execution engine hands to the layer. -/
structure Net where
  bottom0 : Blob
  bottom1 : Blob
  top : Blob

/-- `Forward_cpu` as a transformer of the full blob state: the source
writes only through `top[0]->mutable_cpu_data()`, so only the top blob
is replaced. -/
def ForwardNet (L : BiasChannelLayer) (s : Net) : Option Net :=
  (Forward_cpu L s.bottom0 s.bottom1 s.top).map (fun t => { s with top := t })

/-- Number of IMAGE-mode label slots of sample `n` naming channel `c` and
not in the ignore set (the `k(n,c)` of the specification). -/
def specImageCount (L : BiasChannelLayer) (bottom1 : Blob) (n c : Nat) : Nat :=
  ((Finset.range L.max_labels_).filter (fun j =>
    imgLabel bottom1 n j ∉ L.ignore_label_ ∧ imgLabel bottom1 n j = (c : Int))).card

/-- PIXEL-mode increment received by channel `c` at a position whose label
value is `l`: nothing for an ignored label; `bg_bias_` on channel `0` for
any non-ignored label; additionally `fg_bias_` on the foreground channel
the label names. -/
def specPixelInc (L : BiasChannelLayer) (c : Nat) (l : Int) : ℚ :=
  if l ∈ L.ignore_label_ then 0
  else (if c = 0 then L.bg_bias_ else 0) +
       (if l = (c : Int) ∧ 0 < c then L.fg_bias_ else 0)

/-! ### Flat-index arithmetic -/

lemma idx_lt {a A pos B : Nat} (ha : a < A) (hpos : pos < B) :
    a * B + pos < A * B := by
  calc a * B + pos < a * B + B := by omega
    _ = (a + 1) * B := by ring
    _ ≤ A * B := mul_le_mul_right' ha B

lemma block_eq_iff {a b pos B : Nat} (hpos : pos < B) :
    (a * B ≤ b * B + pos ∧ b * B + pos < a * B + B) ↔ b = a := by
  constructor
  · rintro ⟨h1, h2⟩
    have hb : b * B < (a + 1) * B := by
      calc b * B ≤ b * B + pos := Nat.le_add_right _ _
        _ < a * B + B := h2
        _ = (a + 1) * B := by ring
    have ha' : a * B < (b + 1) * B := by
      calc a * B ≤ b * B + pos := h1
        _ < b * B + B := by omega
        _ = (b + 1) * B := by ring
    have hb' := lt_of_mul_lt_mul_right hb (Nat.zero_le B)
    have ha'' := lt_of_mul_lt_mul_right ha' (Nat.zero_le B)
    omega
  · rintro rfl
    exact ⟨Nat.le_add_right _ _, by omega⟩

lemma flat_inj {a b pos p B : Nat} (hpos : pos < B) (hp : p < B) :
    a * B + pos = b * B + p ↔ a = b ∧ pos = p := by
  constructor
  · intro h
    have hba : b = a := (block_eq_iff hp).mp ⟨by omega, by omega⟩
    subst hba
    omega
  · rintro ⟨rfl, rfl⟩
    rfl

/-! ### Frame predicate: everything but the data buffer unchanged -/

/-- All fields of a blob except `data` agree. -/
def sameFrame (t top : Blob) : Prop :=
  t.num = top.num ∧ t.channels = top.channels ∧ t.height = top.height ∧
    t.width = top.width ∧ t.diff = top.diff

lemma sameFrame_rfl (t : Blob) : sameFrame t t := ⟨rfl, rfl, rfl, rfl, rfl⟩

lemma sameFrame_trans {a b c : Blob} (h1 : sameFrame a b) (h2 : sameFrame b c) :
    sameFrame a c := by
  obtain ⟨x1, x2, x3, x4, x5⟩ := h1
  obtain ⟨y1, y2, y3, y4, y5⟩ := h2
  exact ⟨x1.trans y1, x2.trans y2, x3.trans y3, x4.trans y4, x5.trans y5⟩

lemma sameFrame_data {t : Blob} (d : Nat → ℚ) :
    sameFrame { t with data := d } t := ⟨rfl, rfl, rfl, rfl, rfl⟩

/-! ### IMAGE mode: loop invariants -/

/-- Slots counted up to slot bound `j` for sample `n`, channel `c`. -/
def countUpTo (L : BiasChannelLayer) (bottom1 : Blob) (n c j : Nat) : Nat :=
  ((Finset.range j).filter (fun j' =>
    imgLabel bottom1 n j' ∉ L.ignore_label_ ∧
      imgLabel bottom1 n j' = (c : Int))).card

lemma countUpTo_succ_of_ignored (L : BiasChannelLayer) (b1 : Blob) (n c j : Nat)
    (hig : imgLabel b1 n j ∈ L.ignore_label_) :
    countUpTo L b1 n c (j + 1) = countUpTo L b1 n c j := by
  unfold countUpTo
  rw [Finset.range_succ, Finset.filter_insert, if_neg]
  simp [hig]

lemma countUpTo_succ_of_hit (L : BiasChannelLayer) (b1 : Blob) (n c j : Nat)
    (hig : imgLabel b1 n j ∉ L.ignore_label_)
    (hc : imgLabel b1 n j = (c : Int)) :
    countUpTo L b1 n c (j + 1) = countUpTo L b1 n c j + 1 := by
  unfold countUpTo
  rw [Finset.range_succ, Finset.filter_insert, if_pos ⟨hig, hc⟩,
    Finset.card_insert_of_not_mem]
  intro hmem
  exact absurd (Finset.mem_filter.mp hmem).1 (by simp)

lemma countUpTo_succ_of_miss (L : BiasChannelLayer) (b1 : Blob) (n c j : Nat)
    (hc : imgLabel b1 n j ≠ (c : Int)) :
    countUpTo L b1 n c (j + 1) = countUpTo L b1 n c j := by
  unfold countUpTo
  rw [Finset.range_succ, Finset.filter_insert, if_neg]
  intro hp
  exact hc hp.2

lemma imageInner_invariant (L : BiasChannelLayer) (b1 : Blob) (n : Nat) (top : Blob)
    (htc : top.channels = L.channels_) (hth : top.height = L.height_)
    (htw : top.width = L.width_)
    (hval : ∀ j, j < L.max_labels_ → imgLabel b1 n j ∉ L.ignore_label_ →
      0 ≤ imgLabel b1 n j ∧ imgLabel b1 n j < (L.channels_ : Int)) :
    ∀ j, j ≤ L.max_labels_ → ∃ t, imageInner L b1 n top j = some t ∧
      sameFrame t top ∧
      (∀ c, c < L.channels_ → ∀ pos, pos < L.height_ * L.width_ →
        t.data ((n * L.channels_ + c) * (L.height_ * L.width_) + pos) =
          top.data ((n * L.channels_ + c) * (L.height_ * L.width_) + pos) +
            (countUpTo L b1 n c j : ℚ) *
              (if c = 0 then L.bg_bias_ else L.fg_bias_)) ∧
      (∀ i, i < (n * L.channels_) * (L.height_ * L.width_) ∨
            ((n + 1) * L.channels_) * (L.height_ * L.width_) ≤ i →
        t.data i = top.data i) := by
  intro j
  induction j with
  | zero =>
    intro _
    refine ⟨top, rfl, sameFrame_rfl top, ?_, fun i _ => rfl⟩
    intro c hc pos hpos
    simp [countUpTo]
  | succ j ih =>
    intro hj1
    obtain ⟨t, ht, hframe, hcell, hout⟩ := ih (by omega)
    by_cases hig : imgLabel b1 n j ∈ L.ignore_label_
    · refine ⟨t, ?_, hframe, ?_, hout⟩
      · simp only [imageInner, ht, Option.some_bind, imageStep, if_pos hig]
      · intro c hc pos hpos
        rw [hcell c hc pos hpos, countUpTo_succ_of_ignored L b1 n c j hig]
    · have hr := hval j (by omega) hig
      have hlab : (imgLabel b1 n j).toNat < L.channels_ := by omega
      have hofs : t.offset n (imgLabel b1 n j).toNat 0 0 =
          (n * L.channels_ + (imgLabel b1 n j).toNat) * (L.height_ * L.width_) := by
        unfold Blob.offset
        rw [hframe.2.1, htc, hframe.2.2.1, hth, hframe.2.2.2.1, htw]
        ring
      refine ⟨{ t with data := caffe_add_scalar (L.height_ * L.width_) (if imgLabel b1 n j = 0 then L.bg_bias_ else L.fg_bias_) t.data (t.offset n (imgLabel b1 n j).toNat 0 0) }, ?_, ?_, ?_, ?_⟩
      · simp only [imageInner, ht, Option.some_bind, imageStep, if_neg hig,
          if_pos hr]
      · exact sameFrame_trans (sameFrame_data _) hframe
      · intro c hc pos hpos
        show caffe_add_scalar (L.height_ * L.width_) _ t.data _ _ = _
        unfold caffe_add_scalar
        rw [hofs]
        by_cases hceq : c = (imgLabel b1 n j).toNat
        · rw [if_pos]
          · rw [hcell c hc pos hpos,
              countUpTo_succ_of_hit L b1 n c j hig (by omega)]
            have hb : (if imgLabel b1 n j = 0 then L.bg_bias_ else L.fg_bias_) =
                (if c = 0 then L.bg_bias_ else L.fg_bias_) := by
              by_cases h0 : imgLabel b1 n j = 0
              · rw [if_pos h0, if_pos (by omega)]
              · rw [if_neg h0, if_neg (by omega)]
            rw [hb]
            push_cast
            ring
          · rw [hceq]
            exact (block_eq_iff hpos).mpr rfl
        · rw [if_neg]
          · rw [hcell c hc pos hpos,
              countUpTo_succ_of_miss L b1 n c j (by omega)]
          · intro hcontra
            have := (block_eq_iff hpos).mp hcontra
            omega
      · intro i hi
        show caffe_add_scalar (L.height_ * L.width_) _ t.data _ _ = _
        unfold caffe_add_scalar
        rw [hofs, if_neg]
        · exact hout i hi
        · have h1 : (n * L.channels_) * (L.height_ * L.width_) ≤
              (n * L.channels_ + (imgLabel b1 n j).toNat) * (L.height_ * L.width_) :=
            mul_le_mul_right' (Nat.le_add_right _ _) _
          have h2 : (n * L.channels_ + (imgLabel b1 n j).toNat) * (L.height_ * L.width_) +
              (L.height_ * L.width_) ≤
              ((n + 1) * L.channels_) * (L.height_ * L.width_) := by
            have e1 : (n * L.channels_ + (imgLabel b1 n j).toNat) * (L.height_ * L.width_) +
                (L.height_ * L.width_) =
                (n * L.channels_ + (imgLabel b1 n j).toNat + 1) * (L.height_ * L.width_) := by
              ring
            have e2 : (n + 1) * L.channels_ = n * L.channels_ + L.channels_ := by
              ring
            rw [e1, e2]
            exact mul_le_mul_right' (by omega) _
          rcases hi with hi | hi
          · intro hcontra
            omega
          · intro hcontra
            omega

lemma specImageCount_eq_countUpTo (L : BiasChannelLayer) (b1 : Blob) (n c : Nat) :
    specImageCount L b1 n c = countUpTo L b1 n c L.max_labels_ := rfl

lemma cell_lt_block {n m c C HW pos : Nat} (hn : n < m) (hc : c < C) (hpos : pos < HW) :
    (n * C + c) * HW + pos < (m * C) * HW := by
  have e2 : (n + 1) * C = n * C + C := by ring
  have h1 : n * C + c < (n + 1) * C := by omega
  have h2 : (n + 1) * C ≤ m * C := mul_le_mul_right' (by omega) C
  exact idx_lt (by omega) hpos

lemma block_le_cell {n c C HW pos : Nat} :
    (n * C) * HW ≤ (n * C + c) * HW + pos :=
  le_trans (mul_le_mul_right' (Nat.le_add_right _ _) _) (Nat.le_add_right _ _)

lemma imageLoop_invariant (L : BiasChannelLayer) (b1 : Blob) (top : Blob)
    (htc : top.channels = L.channels_) (hth : top.height = L.height_)
    (htw : top.width = L.width_)
    (hval : ∀ n, n < L.num_ → ∀ j, j < L.max_labels_ →
      imgLabel b1 n j ∉ L.ignore_label_ →
      0 ≤ imgLabel b1 n j ∧ imgLabel b1 n j < (L.channels_ : Int)) :
    ∀ m, m ≤ L.num_ → ∃ t, imageLoop L b1 top m = some t ∧
      sameFrame t top ∧
      (∀ n, n < m → ∀ c, c < L.channels_ → ∀ pos, pos < L.height_ * L.width_ →
        t.data ((n * L.channels_ + c) * (L.height_ * L.width_) + pos) =
          top.data ((n * L.channels_ + c) * (L.height_ * L.width_) + pos) +
            (specImageCount L b1 n c : ℚ) *
              (if c = 0 then L.bg_bias_ else L.fg_bias_)) ∧
      (∀ i, (m * L.channels_) * (L.height_ * L.width_) ≤ i →
        t.data i = top.data i) := by
  intro m
  induction m with
  | zero =>
    intro _
    exact ⟨top, rfl, sameFrame_rfl top, fun n hn => absurd hn (by omega),
      fun i _ => rfl⟩
  | succ m ih =>
    intro hm1
    obtain ⟨t, ht, hframe, hcell, hout⟩ := ih (by omega)
    obtain ⟨t', ht', hframe', hcell', hout'⟩ :=
      imageInner_invariant L b1 m t (hframe.2.1.trans htc) (hframe.2.2.1.trans hth)
        (hframe.2.2.2.1.trans htw) (hval m (by omega)) L.max_labels_ le_rfl
    refine ⟨t', ?_, sameFrame_trans hframe' hframe, ?_, ?_⟩
    · simp only [imageLoop, ht, Option.some_bind, ht']
    · intro n hn c hc pos hpos
      by_cases hnm : n < m
      · rw [hout' _ (Or.inl (cell_lt_block hnm hc hpos)), hcell n hnm c hc pos hpos]
      · have hnm' : n = m := by omega
        subst hnm'
        rw [hcell' c hc pos hpos, hout _ block_le_cell,
          specImageCount_eq_countUpTo]
    · intro i hi
      have hmono : (m * L.channels_) * (L.height_ * L.width_) ≤
          ((m + 1) * L.channels_) * (L.height_ * L.width_) :=
        mul_le_mul_right' (mul_le_mul_right' (by omega) _) _
      rw [hout' i (Or.inr hi), hout i (le_trans hmono hi)]

/-! ### PIXEL mode: loop invariants -/


lemma pixelStep_invariant (L : BiasChannelLayer) (b1 : Blob) (n j : Nat) (t : Blob)
    (htc : t.channels = L.channels_) (hth : t.height = L.height_)
    (htw : t.width = L.width_) (hj : j < L.height_ * L.width_)
    (hvj : pixLabel b1 n j ∉ L.ignore_label_ →
      0 ≤ pixLabel b1 n j ∧ pixLabel b1 n j < (L.channels_ : Int)) :
    ∃ t', pixelStep L b1 n j t = some t' ∧ sameFrame t' t ∧
      (∀ c, c < L.channels_ → ∀ pos, pos < L.height_ * L.width_ →
        t'.data ((n * L.channels_ + c) * (L.height_ * L.width_) + pos) =
          t.data ((n * L.channels_ + c) * (L.height_ * L.width_) + pos) +
            (if pos = j then specPixelInc L c (pixLabel b1 n j) else 0)) ∧
      (∀ i, i < (n * L.channels_) * (L.height_ * L.width_) ∨
            ((n + 1) * L.channels_) * (L.height_ * L.width_) ≤ i →
        t'.data i = t.data i) := by
  have hofs0 : t.offset n 0 0 0 + j =
      (n * L.channels_ + 0) * (L.height_ * L.width_) + j := by
    unfold Blob.offset
    rw [htc, hth, htw]
    ring
  by_cases hig : pixLabel b1 n j ∈ L.ignore_label_
  · refine ⟨t, ?_, sameFrame_rfl t, ?_, fun i _ => rfl⟩
    · simp only [pixelStep, if_pos hig]
    · intro c hc pos hpos
      rw [specPixelInc, if_pos hig]
      simp
  · have hr := hvj hig
    by_cases h0 : pixLabel b1 n j = 0
    · have hC : 0 < L.channels_ := by omega
      refine ⟨{ t with data := addAt t.data (t.offset n 0 0 0 + j) L.bg_bias_ }, ?_, sameFrame_data _, ?_, ?_⟩
      · simp only [pixelStep, if_neg hig, if_pos h0]
      · intro c hc pos hpos
        have hfge : ¬(pixLabel b1 n j = (c : Int) ∧ 0 < c) := by
          rintro ⟨e1, e2⟩
          omega
        have hinc : specPixelInc L c (pixLabel b1 n j) =
            if c = 0 then L.bg_bias_ else 0 := by
          unfold specPixelInc
          rw [if_neg hig, if_neg hfge, add_zero]
        have hT1 : ((n * L.channels_ + c) * (L.height_ * L.width_) + pos =
            (n * L.channels_ + 0) * (L.height_ * L.width_) + j) ↔
            (c = 0 ∧ pos = j) := by
          rw [flat_inj hpos hj]
          omega
        show addAt t.data _ _ _ = _
        unfold addAt
        rw [hofs0, hinc]
        by_cases hcp : c = 0 ∧ pos = j
        · rw [if_pos (hT1.mpr hcp), if_pos hcp.2, if_pos hcp.1]
        · rw [if_neg (fun hx => hcp (hT1.mp hx))]
          by_cases hpj : pos = j
          · have hc0 : ¬ c = 0 := fun h => hcp ⟨h, hpj⟩
            rw [if_pos hpj, if_neg hc0, add_zero]
          · rw [if_neg hpj, add_zero]
      · intro i hi
        have e2 : (n + 1) * L.channels_ = n * L.channels_ + L.channels_ := by ring
        have hlow : (n * L.channels_) * (L.height_ * L.width_) ≤
            (n * L.channels_ + 0) * (L.height_ * L.width_) + j := block_le_cell
        have hhigh : (n * L.channels_ + 0) * (L.height_ * L.width_) + j <
            ((n + 1) * L.channels_) * (L.height_ * L.width_) :=
          idx_lt (by omega) hj
        have hni : ¬(i = (n * L.channels_ + 0) * (L.height_ * L.width_) + j) := by
          rcases hi with hi | hi
          · omega
          · omega
        show addAt t.data _ _ _ = _
        unfold addAt
        rw [hofs0, if_neg hni]
    · have h1 : 0 < pixLabel b1 n j ∧ pixLabel b1 n j < (L.channels_ : Int) := by
        omega
      have hlab0 : 0 < (pixLabel b1 n j).toNat := by omega
      have hlabC : (pixLabel b1 n j).toNat < L.channels_ := by omega
      have hofs2 : t.offset n 0 0 0 + (pixLabel b1 n j).toNat * (L.height_ * L.width_) + j =
          (n * L.channels_ + (pixLabel b1 n j).toNat) * (L.height_ * L.width_) + j := by
        unfold Blob.offset
        rw [htc, hth, htw]
        ring
      refine ⟨{ t with data := addAt (addAt t.data (t.offset n 0 0 0 + j) L.bg_bias_) (t.offset n 0 0 0 + (pixLabel b1 n j).toNat * (L.height_ * L.width_) + j) L.fg_bias_ }, ?_, sameFrame_data _, ?_, ?_⟩
      · simp only [pixelStep, if_neg hig, if_neg h0, if_pos h1]
      · intro c hc pos hpos
        have hinc : specPixelInc L c (pixLabel b1 n j) =
            (if c = 0 then L.bg_bias_ else 0) +
            (if pixLabel b1 n j = (c : Int) ∧ 0 < c then L.fg_bias_ else 0) := by
          unfold specPixelInc
          rw [if_neg hig]
        have hT1 : ((n * L.channels_ + c) * (L.height_ * L.width_) + pos =
            (n * L.channels_ + 0) * (L.height_ * L.width_) + j) ↔
            (c = 0 ∧ pos = j) := by
          rw [flat_inj hpos hj]
          omega
        have hT2 : ((n * L.channels_ + c) * (L.height_ * L.width_) + pos =
            (n * L.channels_ + (pixLabel b1 n j).toNat) * (L.height_ * L.width_) + j) ↔
            (c = (pixLabel b1 n j).toNat ∧ pos = j) := by
          rw [flat_inj hpos hj]
          omega
        show addAt (addAt t.data _ _) _ _ _ = _
        unfold addAt
        rw [hofs0, hofs2, hinc]
        by_cases hpj : pos = j
        · by_cases hc0 : c = 0
          · have hn2 : ¬((n * L.channels_ + c) * (L.height_ * L.width_) + pos =
                (n * L.channels_ + (pixLabel b1 n j).toNat) * (L.height_ * L.width_) + j) :=
              fun hx => by have hy := hT2.mp hx; omega
            have hfge : ¬(pixLabel b1 n j = (c : Int) ∧ 0 < c) := by
              rintro ⟨e1, e2⟩
              omega
            rw [if_neg hn2, if_pos (hT1.mpr ⟨hc0, hpj⟩), if_pos hpj, if_pos hc0,
              if_neg hfge, add_zero]
          · by_cases hcl : c = (pixLabel b1 n j).toNat
            · have hn1 : ¬((n * L.channels_ + c) * (L.height_ * L.width_) + pos =
                  (n * L.channels_ + 0) * (L.height_ * L.width_) + j) :=
                fun hx => by have hy := hT1.mp hx; omega
              have hfg : pixLabel b1 n j = (c : Int) ∧ 0 < c := by
                constructor
                · omega
                · omega
              rw [if_pos (hT2.mpr ⟨hcl, hpj⟩), if_neg hn1, if_pos hpj, if_neg hc0,
                if_pos hfg, zero_add]
            · have hn1 : ¬((n * L.channels_ + c) * (L.height_ * L.width_) + pos =
                  (n * L.channels_ + 0) * (L.height_ * L.width_) + j) :=
                fun hx => by have hy := hT1.mp hx; omega
              have hn2 : ¬((n * L.channels_ + c) * (L.height_ * L.width_) + pos =
                  (n * L.channels_ + (pixLabel b1 n j).toNat) * (L.height_ * L.width_) + j) :=
                fun hx => by have hy := hT2.mp hx; omega
              have hfge : ¬(pixLabel b1 n j = (c : Int) ∧ 0 < c) := by
                rintro ⟨e1, e2⟩
                omega
              rw [if_neg hn2, if_neg hn1, if_pos hpj, if_neg hc0, if_neg hfge,
                zero_add, add_zero]
        · have hn1 : ¬((n * L.channels_ + c) * (L.height_ * L.width_) + pos =
              (n * L.channels_ + 0) * (L.height_ * L.width_) + j) :=
            fun hx => hpj (hT1.mp hx).2
          have hn2 : ¬((n * L.channels_ + c) * (L.height_ * L.width_) + pos =
              (n * L.channels_ + (pixLabel b1 n j).toNat) * (L.height_ * L.width_) + j) :=
            fun hx => hpj (hT2.mp hx).2
          rw [if_neg hn2, if_neg hn1, if_neg hpj, add_zero]
      · intro i hi
        have e2 : (n + 1) * L.channels_ = n * L.channels_ + L.channels_ := by ring
        have hlow0 : (n * L.channels_) * (L.height_ * L.width_) ≤
            (n * L.channels_ + 0) * (L.height_ * L.width_) + j := block_le_cell
        have hhigh0 : (n * L.channels_ + 0) * (L.height_ * L.width_) + j <
            ((n + 1) * L.channels_) * (L.height_ * L.width_) :=
          idx_lt (by omega) hj
        have hlow2 : (n * L.channels_) * (L.height_ * L.width_) ≤
            (n * L.channels_ + (pixLabel b1 n j).toNat) * (L.height_ * L.width_) + j :=
          block_le_cell
        have hhigh2 : (n * L.channels_ + (pixLabel b1 n j).toNat) * (L.height_ * L.width_) + j <
            ((n + 1) * L.channels_) * (L.height_ * L.width_) :=
          idx_lt (by omega) hj
        have hn1 : ¬(i = (n * L.channels_ + 0) * (L.height_ * L.width_) + j) := by
          rcases hi with hi | hi
          · omega
          · omega
        have hn2 : ¬(i = (n * L.channels_ + (pixLabel b1 n j).toNat) * (L.height_ * L.width_) + j) := by
          rcases hi with hi | hi
          · omega
          · omega
        show addAt (addAt t.data _ _) _ _ _ = _
        unfold addAt
        rw [hofs0, hofs2, if_neg hn2, if_neg hn1]

lemma pixelInner_invariant (L : BiasChannelLayer) (b1 : Blob) (n : Nat) (top : Blob)
    (htc : top.channels = L.channels_) (hth : top.height = L.height_)
    (htw : top.width = L.width_)
    (hval : ∀ p, p < L.height_ * L.width_ → pixLabel b1 n p ∉ L.ignore_label_ →
      0 ≤ pixLabel b1 n p ∧ pixLabel b1 n p < (L.channels_ : Int)) :
    ∀ j, j ≤ L.height_ * L.width_ → ∃ t, pixelInner L b1 n top j = some t ∧
      sameFrame t top ∧
      (∀ c, c < L.channels_ → ∀ pos, pos < L.height_ * L.width_ →
        t.data ((n * L.channels_ + c) * (L.height_ * L.width_) + pos) =
          top.data ((n * L.channels_ + c) * (L.height_ * L.width_) + pos) +
            (if pos < j then specPixelInc L c (pixLabel b1 n pos) else 0)) ∧
      (∀ i, i < (n * L.channels_) * (L.height_ * L.width_) ∨
            ((n + 1) * L.channels_) * (L.height_ * L.width_) ≤ i →
        t.data i = top.data i) := by
  intro j
  induction j with
  | zero =>
    intro _
    refine ⟨top, rfl, sameFrame_rfl top, ?_, fun i _ => rfl⟩
    intro c hc pos hpos
    simp
  | succ j ih =>
    intro hj1
    obtain ⟨t, ht, hframe, hcell, hout⟩ := ih (by omega)
    obtain ⟨t', ht', hframe', hcell', hout'⟩ :=
      pixelStep_invariant L b1 n j t (hframe.2.1.trans htc) (hframe.2.2.1.trans hth)
        (hframe.2.2.2.1.trans htw) (by omega) (hval j (by omega))
    refine ⟨t', ?_, sameFrame_trans hframe' hframe, ?_, ?_⟩
    · simp only [pixelInner, ht, Option.some_bind, ht']
    · intro c hc pos hpos
      rw [hcell' c hc pos hpos, hcell c hc pos hpos]
      by_cases hlt : pos < j
      · rw [if_pos hlt, if_pos (show pos < j + 1 by omega),
          if_neg (show ¬ pos = j by omega)]
        ring
      · by_cases heq : pos = j
        · rw [if_neg hlt, if_pos heq, if_pos (show pos < j + 1 by omega), heq]
          ring
        · rw [if_neg hlt, if_neg heq, if_neg (show ¬ pos < j + 1 by omega)]
          ring
    · intro i hi
      rw [hout' i hi, hout i hi]

lemma pixelLoop_invariant (L : BiasChannelLayer) (b1 : Blob) (top : Blob)
    (htc : top.channels = L.channels_) (hth : top.height = L.height_)
    (htw : top.width = L.width_)
    (hval : ∀ n, n < L.num_ → ∀ p, p < L.height_ * L.width_ →
      pixLabel b1 n p ∉ L.ignore_label_ →
      0 ≤ pixLabel b1 n p ∧ pixLabel b1 n p < (L.channels_ : Int)) :
    ∀ m, m ≤ L.num_ → ∃ t, pixelLoop L b1 top m = some t ∧
      sameFrame t top ∧
      (∀ n, n < m → ∀ c, c < L.channels_ → ∀ pos, pos < L.height_ * L.width_ →
        t.data ((n * L.channels_ + c) * (L.height_ * L.width_) + pos) =
          top.data ((n * L.channels_ + c) * (L.height_ * L.width_) + pos) +
            specPixelInc L c (pixLabel b1 n pos)) ∧
      (∀ i, (m * L.channels_) * (L.height_ * L.width_) ≤ i →
        t.data i = top.data i) := by
  intro m
  induction m with
  | zero =>
    intro _
    exact ⟨top, rfl, sameFrame_rfl top, fun n hn => absurd hn (by omega),
      fun i _ => rfl⟩
  | succ m ih =>
    intro hm1
    obtain ⟨t, ht, hframe, hcell, hout⟩ := ih (by omega)
    obtain ⟨t', ht', hframe', hcell', hout'⟩ :=
      pixelInner_invariant L b1 m t (hframe.2.1.trans htc) (hframe.2.2.1.trans hth)
        (hframe.2.2.2.1.trans htw) (hval m (by omega)) (L.height_ * L.width_) le_rfl
    refine ⟨t', ?_, sameFrame_trans hframe' hframe, ?_, ?_⟩
    · simp only [pixelLoop, ht, Option.some_bind, ht']
    · intro n hn c hc pos hpos
      by_cases hnm : n < m
      · rw [hout' _ (Or.inl (cell_lt_block hnm hc hpos)), hcell n hnm c hc pos hpos]
      · have hnm' : n = m := by omega
        subst hnm'
        rw [hcell' c hc pos hpos, hout _ block_le_cell, if_pos hpos]
    · intro i hi
      have hmono : (m * L.channels_) * (L.height_ * L.width_) ≤
          ((m + 1) * L.channels_) * (L.height_ * L.width_) :=
        mul_le_mul_right' (mul_le_mul_right' (by omega) _) _
      rw [hout' i (Or.inr hi), hout i (le_trans hmono hi)]

/-! ### A successful forward pass implies every encountered label was
either ignored or in range -/

lemma imageStep_ok {L : BiasChannelLayer} {b1 : Blob} {n j : Nat} {t t' : Blob}
    (h : imageStep L b1 n j t = some t')
    (hig : imgLabel b1 n j ∉ L.ignore_label_) :
    0 ≤ imgLabel b1 n j ∧ imgLabel b1 n j < (L.channels_ : Int) := by
  by_cases hr : 0 ≤ imgLabel b1 n j ∧ imgLabel b1 n j < (L.channels_ : Int)
  · exact hr
  · exfalso
    simp only [imageStep, if_neg hig, if_neg hr] at h
    exact Option.noConfusion h

lemma pixelStep_ok {L : BiasChannelLayer} {b1 : Blob} {n j : Nat} {t t' : Blob}
    (h : pixelStep L b1 n j t = some t')
    (hig : pixLabel b1 n j ∉ L.ignore_label_) :
    pixLabel b1 n j = 0 ∨
      (0 < pixLabel b1 n j ∧ pixLabel b1 n j < (L.channels_ : Int)) := by
  by_cases h0 : pixLabel b1 n j = 0
  · exact Or.inl h0
  · by_cases hr : 0 < pixLabel b1 n j ∧ pixLabel b1 n j < (L.channels_ : Int)
    · exact Or.inr hr
    · exfalso
      simp only [pixelStep, if_neg hig, if_neg h0, if_neg hr] at h
      exact Option.noConfusion h

lemma imageInner_ok {L : BiasChannelLayer} {b1 : Blob} {n : Nat} {top : Blob} :
    ∀ {j t}, imageInner L b1 n top j = some t →
      ∀ j', j' < j → imgLabel b1 n j' ∉ L.ignore_label_ →
        0 ≤ imgLabel b1 n j' ∧ imgLabel b1 n j' < (L.channels_ : Int) := by
  intro j
  induction j with
  | zero =>
    intro t _ j' hj' _
    exact absurd hj' (by omega)
  | succ j ih =>
    intro t h j' hj' hig
    simp only [imageInner] at h
    obtain ⟨u, hu, hstep⟩ := Option.bind_eq_some.mp h
    by_cases hlt : j' < j
    · exact ih hu j' hlt hig
    · have hjj : j' = j := by omega
      subst hjj
      exact imageStep_ok hstep hig

lemma imageLoop_ok {L : BiasChannelLayer} {b1 : Blob} {top : Blob} :
    ∀ {m t}, imageLoop L b1 top m = some t →
      ∀ n, n < m → ∀ j, j < L.max_labels_ → imgLabel b1 n j ∉ L.ignore_label_ →
        0 ≤ imgLabel b1 n j ∧ imgLabel b1 n j < (L.channels_ : Int) := by
  intro m
  induction m with
  | zero =>
    intro t _ n hn
    exact absurd hn (by omega)
  | succ m ih =>
    intro t h n hn j hj hig
    simp only [imageLoop] at h
    obtain ⟨u, hu, hinner⟩ := Option.bind_eq_some.mp h
    by_cases hlt : n < m
    · exact ih hu n hlt j hj hig
    · have hnm : n = m := by omega
      subst hnm
      exact imageInner_ok hinner j hj hig

lemma pixelInner_ok {L : BiasChannelLayer} {b1 : Blob} {n : Nat} {top : Blob} :
    ∀ {j t}, pixelInner L b1 n top j = some t →
      ∀ p, p < j → pixLabel b1 n p ∉ L.ignore_label_ →
        pixLabel b1 n p = 0 ∨
          (0 < pixLabel b1 n p ∧ pixLabel b1 n p < (L.channels_ : Int)) := by
  intro j
  induction j with
  | zero =>
    intro t _ p hp _
    exact absurd hp (by omega)
  | succ j ih =>
    intro t h p hp hig
    simp only [pixelInner] at h
    obtain ⟨u, hu, hstep⟩ := Option.bind_eq_some.mp h
    by_cases hlt : p < j
    · exact ih hu p hlt hig
    · have hpj : p = j := by omega
      subst hpj
      exact pixelStep_ok hstep hig

lemma pixelLoop_ok {L : BiasChannelLayer} {b1 : Blob} {top : Blob} :
    ∀ {m t}, pixelLoop L b1 top m = some t →
      ∀ n, n < m → ∀ p, p < L.height_ * L.width_ →
        pixLabel b1 n p ∉ L.ignore_label_ →
        pixLabel b1 n p = 0 ∨
          (0 < pixLabel b1 n p ∧ pixLabel b1 n p < (L.channels_ : Int)) := by
  intro m
  induction m with
  | zero =>
    intro t _ n hn
    exact absurd hn (by omega)
  | succ m ih =>
    intro t h n hn p hp hig
    simp only [pixelLoop] at h
    obtain ⟨u, hu, hinner⟩ := Option.bind_eq_some.mp h
    by_cases hlt : n < m
    · exact ih hu n hlt p hp hig
    · have hnm : n = m := by omega
      subst hnm
      exact pixelInner_ok hinner p hp hig

/-! ### End-to-end forward specifications -/

lemma Forward_cpu_image_spec (L : BiasChannelLayer) (b0 b1 top : Blob)
    (hmode : L.label_type = LabelType.IMAGE)
    (hn : L.num_ = b0.num) (hc : L.channels_ = b0.channels)
    (hh : L.height_ = b0.height) (hw : L.width_ = b0.width)
    (htc : top.channels = b0.channels) (hth : top.height = b0.height)
    (htw : top.width = b0.width)
    (hval : ∀ n, n < L.num_ → ∀ j, j < L.max_labels_ →
      imgLabel b1 n j ∉ L.ignore_label_ →
      0 ≤ imgLabel b1 n j ∧ imgLabel b1 n j < (L.channels_ : Int)) :
    ∃ out, Forward_cpu L b0 b1 top = some out ∧ sameFrame out top ∧
      (∀ n, n < b0.num → ∀ c, c < b0.channels → ∀ h, h < b0.height →
        ∀ w, w < b0.width →
        out.data (b0.offset n c h w) = b0.data (b0.offset n c h w) +
          (specImageCount L b1 n c : ℚ) *
            (if c = 0 then L.bg_bias_ else L.fg_bias_)) ∧
      (∀ i, b0.count ≤ i → out.data i = top.data i) := by
  have hcnt : b0.count = (b0.num * b0.channels) * (b0.height * b0.width) := by
    unfold Blob.count
    ring
  have hunf : Forward_cpu L b0 b1 top =
      imageLoop L b1 { top with data := caffe_copy b0.count b0.data top.data } L.num_ := by
    simp only [Forward_cpu, hmode]
  obtain ⟨t, ht, hframe, hcell, hout⟩ :=
    imageLoop_invariant L b1 { top with data := caffe_copy b0.count b0.data top.data }
      (htc.trans hc.symm) (hth.trans hh.symm) (htw.trans hw.symm) hval L.num_ le_rfl
  rw [hn, hc, hh, hw] at hcell hout
  refine ⟨t, hunf.trans ht, sameFrame_trans hframe (sameFrame_data _), ?_, ?_⟩
  · intro n hn' c hc' h hh' w hw'
    have hidx : b0.offset n c h w =
        (n * b0.channels + c) * (b0.height * b0.width) + (h * b0.width + w) := by
      unfold Blob.offset
      ring
    have hpos : h * b0.width + w < b0.height * b0.width := idx_lt hh' hw'
    have hlt : (n * b0.channels + c) * (b0.height * b0.width) + (h * b0.width + w) <
        b0.count := by
      rw [hcnt]
      exact cell_lt_block hn' hc' hpos
    rw [hidx, hcell n hn' c hc' (h * b0.width + w) hpos]
    show caffe_copy b0.count b0.data top.data _ + _ = _
    simp only [caffe_copy]
    rw [if_pos hlt]
  · intro i hi
    rw [hout i (by rw [← hcnt]; exact hi)]
    show caffe_copy b0.count b0.data top.data i = top.data i
    simp only [caffe_copy]
    rw [if_neg (by omega)]

lemma Forward_cpu_pixel_spec (L : BiasChannelLayer) (b0 b1 top : Blob)
    (hmode : L.label_type = LabelType.PIXEL)
    (hn : L.num_ = b0.num) (hc : L.channels_ = b0.channels)
    (hh : L.height_ = b0.height) (hw : L.width_ = b0.width)
    (htc : top.channels = b0.channels) (hth : top.height = b0.height)
    (htw : top.width = b0.width)
    (hval : ∀ n, n < L.num_ → ∀ p, p < L.height_ * L.width_ →
      pixLabel b1 n p ∉ L.ignore_label_ →
      0 ≤ pixLabel b1 n p ∧ pixLabel b1 n p < (L.channels_ : Int)) :
    ∃ out, Forward_cpu L b0 b1 top = some out ∧ sameFrame out top ∧
      (∀ n, n < b0.num → ∀ c, c < b0.channels → ∀ h, h < b0.height →
        ∀ w, w < b0.width →
        out.data (b0.offset n c h w) = b0.data (b0.offset n c h w) +
          specPixelInc L c (pixLabel b1 n (h * b0.width + w))) ∧
      (∀ i, b0.count ≤ i → out.data i = top.data i) := by
  have hcnt : b0.count = (b0.num * b0.channels) * (b0.height * b0.width) := by
    unfold Blob.count
    ring
  have hunf : Forward_cpu L b0 b1 top =
      pixelLoop L b1 { top with data := caffe_copy b0.count b0.data top.data } L.num_ := by
    simp only [Forward_cpu, hmode]
  obtain ⟨t, ht, hframe, hcell, hout⟩ :=
    pixelLoop_invariant L b1 { top with data := caffe_copy b0.count b0.data top.data }
      (htc.trans hc.symm) (hth.trans hh.symm) (htw.trans hw.symm) hval L.num_ le_rfl
  rw [hn, hc, hh, hw] at hcell hout
  refine ⟨t, hunf.trans ht, sameFrame_trans hframe (sameFrame_data _), ?_, ?_⟩
  · intro n hn' c hc' h hh' w hw'
    have hidx : b0.offset n c h w =
        (n * b0.channels + c) * (b0.height * b0.width) + (h * b0.width + w) := by
      unfold Blob.offset
      ring
    have hpos : h * b0.width + w < b0.height * b0.width := idx_lt hh' hw'
    have hlt : (n * b0.channels + c) * (b0.height * b0.width) + (h * b0.width + w) <
        b0.count := by
      rw [hcnt]
      exact cell_lt_block hn' hc' hpos
    rw [hidx, hcell n hn' c hc' (h * b0.width + w) hpos]
    show caffe_copy b0.count b0.data top.data _ + _ = _
    simp only [caffe_copy]
    rw [if_pos hlt]
  · intro i hi
    rw [hout i (by rw [← hcnt]; exact hi)]
    show caffe_copy b0.count b0.data top.data i = top.data i
    simp only [caffe_copy]
    rw [if_neg (by omega)]

/-! ### Reshape: success conditions and effect -/

lemma Reshape_spec {L : BiasChannelLayer} {b0 b1 top : Blob}
    {L' : BiasChannelLayer} {top' : Blob}
    (h : Reshape L b0 b1 top = some (L', top')) :
    L'.num_ = b0.num ∧ L'.channels_ = b0.channels ∧ L'.height_ = b0.height ∧
    L'.width_ = b0.width ∧ L'.max_labels_ = b1.channels ∧
    L'.bg_bias_ = L.bg_bias_ ∧ L'.fg_bias_ = L.fg_bias_ ∧
    L'.label_type = L.label_type ∧ L'.ignore_label_ = L.ignore_label_ ∧
    top'.num = b0.num ∧ top'.channels = b0.channels ∧ top'.height = b0.height ∧
    top'.width = b0.width ∧ top'.data = top.data ∧ top'.diff = top.diff ∧
    b1.num = b0.num ∧ 1 ≤ b1.channels ∧
    (L.label_type = LabelType.IMAGE → b1.height = 1 ∧ b1.width = 1) ∧
    (L.label_type = LabelType.PIXEL →
      b1.channels = 1 ∧ b1.height = b0.height ∧ b1.width = b0.width) := by
  simp only [Reshape] at h
  split_ifs at h with h1 h2 h3
  obtain ⟨hL, htop⟩ := Prod.mk.inj (Option.some_inj.mp h)
  subst hL
  subst htop
  refine ⟨rfl, rfl, rfl, rfl, rfl, rfl, rfl, rfl, rfl, rfl, rfl, rfl, rfl,
    rfl, rfl, h1, h2, ?_, ?_⟩
  · intro hm
    rw [hm] at h3
    simp only [Bool.and_eq_true, beq_iff_eq] at h3
    exact h3
  · intro hm
    rw [hm] at h3
    simp only [Bool.and_eq_true, beq_iff_eq] at h3
    exact ⟨h3.1.1, h3.1.2, h3.2⟩

lemma Reshape_isSome_iff (L : BiasChannelLayer) (b0 b1 top : Blob) :
    (Reshape L b0 b1 top).isSome = true ↔
      (b1.num = b0.num ∧ 1 ≤ b1.channels ∧
        (L.label_type = LabelType.IMAGE → b1.height = 1 ∧ b1.width = 1) ∧
        (L.label_type = LabelType.PIXEL →
          b1.channels = 1 ∧ b1.height = b0.height ∧ b1.width = b0.width)) := by
  constructor
  · intro hsome
    obtain ⟨r, hr⟩ := Option.isSome_iff_exists.mp hsome
    obtain ⟨L', top'⟩ := r
    obtain ⟨_, _, _, _, _, _, _, _, _, _, _, _, _, _, _, hb1n, hb1c, himg,
      hpix⟩ := Reshape_spec hr
    exact ⟨hb1n, hb1c, himg, hpix⟩
  · rintro ⟨h1, h2, himg, hpix⟩
    simp only [Reshape]
    split_ifs with hA
    · rfl
    · exfalso
      apply hA
      cases hmode : L.label_type with
      | IMAGE =>
        obtain ⟨ha, hb⟩ := himg hmode
        simp [ha, hb]
      | PIXEL =>
        obtain ⟨ha, hb, hc2⟩ := hpix hmode
        simp [ha, hb, hc2]

/-! ### The accelerated image path equals the reference path -/

lemma gpuImageStep_eq (L : BiasChannelLayer) (b1 : Blob) (n j : Nat) :
    gpuImageStep L b1 n j = imageStep L b1 n j := rfl

lemma gpuImageInner_eq (L : BiasChannelLayer) (b1 : Blob) (n : Nat) (top : Blob) :
    ∀ j, gpuImageInner L b1 n top j = imageInner L b1 n top j := by
  intro j
  induction j with
  | zero => rfl
  | succ j ih =>
    simp only [gpuImageInner, imageInner, ih, gpuImageStep_eq]

lemma gpuImageLoop_eq (L : BiasChannelLayer) (b1 : Blob) (top : Blob) :
    ∀ m, gpuImageLoop L b1 top m = imageLoop L b1 top m := by
  intro m
  induction m with
  | zero => rfl
  | succ m ih =>
    simp only [gpuImageLoop, imageLoop, ih]
    cases imageLoop L b1 top m with
    | none => rfl
    | some t => exact gpuImageInner_eq L b1 m t L.max_labels_

lemma Forward_gpu_eq_cpu (L : BiasChannelLayer) (b0 b1 top : Blob) :
    Forward_gpu L b0 b1 top = Forward_cpu L b0 b1 top := by
  cases hmode : L.label_type with
  | PIXEL => simp only [Forward_gpu, hmode]
  | IMAGE => simp only [Forward_gpu, Forward_cpu, hmode, gpuImageLoop_eq]

/-! ### The forward pass depends on the label data only through its
truncation to int -/

lemma imgLabel_congr {b1 b1' : Blob} (hc : b1.channels = b1'.channels)
    (hh : b1.height = b1'.height) (hw : b1.width = b1'.width)
    (hdata : ∀ i, truncInt (b1.data i) = truncInt (b1'.data i)) (n j : Nat) :
    imgLabel b1 n j = imgLabel b1' n j := by
  unfold imgLabel Blob.offset
  rw [hc, hh, hw]
  exact hdata _

lemma pixLabel_congr {b1 b1' : Blob} (hc : b1.channels = b1'.channels)
    (hh : b1.height = b1'.height) (hw : b1.width = b1'.width)
    (hdata : ∀ i, truncInt (b1.data i) = truncInt (b1'.data i)) (n p : Nat) :
    pixLabel b1 n p = pixLabel b1' n p := by
  unfold pixLabel Blob.offset
  rw [hc, hh, hw]
  exact hdata _

lemma imageInner_label_congr {L : BiasChannelLayer} {b1 b1' : Blob} {n : Nat}
    {top : Blob} (hlab : ∀ j, imgLabel b1 n j = imgLabel b1' n j) :
    ∀ j, imageInner L b1 n top j = imageInner L b1' n top j := by
  intro j
  induction j with
  | zero => rfl
  | succ j ih =>
    simp only [imageInner, ih]
    cases imageInner L b1' n top j with
    | none => rfl
    | some t =>
      show imageStep L b1 n j t = imageStep L b1' n j t
      simp only [imageStep, hlab j]

lemma imageLoop_label_congr {L : BiasChannelLayer} {b1 b1' : Blob} {top : Blob}
    (hlab : ∀ n j, imgLabel b1 n j = imgLabel b1' n j) :
    ∀ m, imageLoop L b1 top m = imageLoop L b1' top m := by
  intro m
  induction m with
  | zero => rfl
  | succ m ih =>
    simp only [imageLoop, ih]
    cases imageLoop L b1' top m with
    | none => rfl
    | some t => exact imageInner_label_congr (hlab m) L.max_labels_

lemma pixelInner_label_congr {L : BiasChannelLayer} {b1 b1' : Blob} {n : Nat}
    {top : Blob} (hlab : ∀ p, pixLabel b1 n p = pixLabel b1' n p) :
    ∀ j, pixelInner L b1 n top j = pixelInner L b1' n top j := by
  intro j
  induction j with
  | zero => rfl
  | succ j ih =>
    simp only [pixelInner, ih]
    cases pixelInner L b1' n top j with
    | none => rfl
    | some t =>
      show pixelStep L b1 n j t = pixelStep L b1' n j t
      simp only [pixelStep, hlab j]

lemma pixelLoop_label_congr {L : BiasChannelLayer} {b1 b1' : Blob} {top : Blob}
    (hlab : ∀ n p, pixLabel b1 n p = pixLabel b1' n p) :
    ∀ m, pixelLoop L b1 top m = pixelLoop L b1' top m := by
  intro m
  induction m with
  | zero => rfl
  | succ m ih =>
    simp only [pixelLoop, ih]
    cases pixelLoop L b1' top m with
    | none => rfl
    | some t => exact pixelInner_label_congr (hlab m) (L.height_ * L.width_)

lemma Forward_cpu_label_trunc_congr (L : BiasChannelLayer) (b0 b1 b1' top : Blob)
    (hc : b1.channels = b1'.channels) (hh : b1.height = b1'.height)
    (hw : b1.width = b1'.width)
    (hdata : ∀ i, truncInt (b1.data i) = truncInt (b1'.data i)) :
    Forward_cpu L b0 b1 top = Forward_cpu L b0 b1' top := by
  cases hmode : L.label_type with
  | IMAGE =>
    simp only [Forward_cpu, hmode]
    exact imageLoop_label_congr (fun n j => imgLabel_congr hc hh hw hdata n j) L.num_
  | PIXEL =>
    simp only [Forward_cpu, hmode]
    exact pixelLoop_label_congr (fun n p => pixLabel_congr hc hh hw hdata n p) L.num_

/-! ### Invalid labels abort the forward pass -/

lemma Forward_cpu_image_none {L : BiasChannelLayer} {b0 b1 top : Blob}
    (hmode : L.label_type = LabelType.IMAGE)
    (hbad : ∃ n, n < L.num_ ∧ ∃ j, j < L.max_labels_ ∧
      imgLabel b1 n j ∉ L.ignore_label_ ∧
      ¬(0 ≤ imgLabel b1 n j ∧ imgLabel b1 n j < (L.channels_ : Int))) :
    Forward_cpu L b0 b1 top = none := by
  obtain ⟨n, hn, j, hj, hig, hr⟩ := hbad
  cases hfwd : Forward_cpu L b0 b1 top with
  | none => rfl
  | some out =>
    exfalso
    have hunf : imageLoop L b1
        { top with data := caffe_copy b0.count b0.data top.data } L.num_ = some out := by
      rw [← hfwd]
      simp only [Forward_cpu, hmode]
    exact hr (imageLoop_ok hunf n hn j hj hig)

lemma Forward_cpu_pixel_none {L : BiasChannelLayer} {b0 b1 top : Blob}
    (hmode : L.label_type = LabelType.PIXEL)
    (hbad : ∃ n, n < L.num_ ∧ ∃ p, p < L.height_ * L.width_ ∧
      pixLabel b1 n p ∉ L.ignore_label_ ∧
      ¬(pixLabel b1 n p = 0 ∨
        (0 < pixLabel b1 n p ∧ pixLabel b1 n p < (L.channels_ : Int)))) :
    Forward_cpu L b0 b1 top = none := by
  obtain ⟨n, hn, p, hp, hig, hr⟩ := hbad
  cases hfwd : Forward_cpu L b0 b1 top with
  | none => rfl
  | some out =>
    exfalso
    have hunf : pixelLoop L b1
        { top with data := caffe_copy b0.count b0.data top.data } L.num_ = some out := by
      rw [← hfwd]
      simp only [Forward_cpu, hmode]
    exact hr (pixelLoop_ok hunf n hn p hp hig)

/-! ### A successful forward pass only rewrites the top data buffer -/

lemma imageStep_frame {L : BiasChannelLayer} {b1 : Blob} {n j : Nat} {t t' : Blob}
    (h : imageStep L b1 n j t = some t') : sameFrame t' t := by
  simp only [imageStep] at h
  split_ifs at h with h1 h2 h3
  · obtain rfl := Option.some_inj.mp h
    exact sameFrame_rfl t
  · obtain rfl := Option.some_inj.mp h
    exact sameFrame_data _
  · obtain rfl := Option.some_inj.mp h
    exact sameFrame_data _

lemma pixelStep_frame {L : BiasChannelLayer} {b1 : Blob} {n j : Nat} {t t' : Blob}
    (h : pixelStep L b1 n j t = some t') : sameFrame t' t := by
  simp only [pixelStep] at h
  split_ifs at h with h1 h2 h3
  · obtain rfl := Option.some_inj.mp h
    exact sameFrame_rfl t
  · obtain rfl := Option.some_inj.mp h
    exact sameFrame_data _
  · obtain rfl := Option.some_inj.mp h
    exact sameFrame_data _

lemma imageInner_frame {L : BiasChannelLayer} {b1 : Blob} {n : Nat} {top : Blob} :
    ∀ {j t}, imageInner L b1 n top j = some t → sameFrame t top := by
  intro j
  induction j with
  | zero =>
    intro t h
    obtain rfl := Option.some_inj.mp h
    exact sameFrame_rfl top
  | succ j ih =>
    intro t h
    simp only [imageInner] at h
    obtain ⟨u, hu, hstep⟩ := Option.bind_eq_some.mp h
    exact sameFrame_trans (imageStep_frame hstep) (ih hu)

lemma imageLoop_frame {L : BiasChannelLayer} {b1 : Blob} {top : Blob} :
    ∀ {m t}, imageLoop L b1 top m = some t → sameFrame t top := by
  intro m
  induction m with
  | zero =>
    intro t h
    obtain rfl := Option.some_inj.mp h
    exact sameFrame_rfl top
  | succ m ih =>
    intro t h
    simp only [imageLoop] at h
    obtain ⟨u, hu, hinner⟩ := Option.bind_eq_some.mp h
    exact sameFrame_trans (imageInner_frame hinner) (ih hu)

lemma pixelInner_frame {L : BiasChannelLayer} {b1 : Blob} {n : Nat} {top : Blob} :
    ∀ {j t}, pixelInner L b1 n top j = some t → sameFrame t top := by
  intro j
  induction j with
  | zero =>
    intro t h
    obtain rfl := Option.some_inj.mp h
    exact sameFrame_rfl top
  | succ j ih =>
    intro t h
    simp only [pixelInner] at h
    obtain ⟨u, hu, hstep⟩ := Option.bind_eq_some.mp h
    exact sameFrame_trans (pixelStep_frame hstep) (ih hu)

lemma pixelLoop_frame {L : BiasChannelLayer} {b1 : Blob} {top : Blob} :
    ∀ {m t}, pixelLoop L b1 top m = some t → sameFrame t top := by
  intro m
  induction m with
  | zero =>
    intro t h
    obtain rfl := Option.some_inj.mp h
    exact sameFrame_rfl top
  | succ m ih =>
    intro t h
    simp only [pixelLoop] at h
    obtain ⟨u, hu, hinner⟩ := Option.bind_eq_some.mp h
    exact sameFrame_trans (pixelInner_frame hinner) (ih hu)

lemma Forward_cpu_frame {L : BiasChannelLayer} {b0 b1 top : Blob} {out : Blob}
    (h : Forward_cpu L b0 b1 top = some out) : sameFrame out top := by
  cases hmode : L.label_type with
  | IMAGE =>
    have h' : imageLoop L b1
        { top with data := caffe_copy b0.count b0.data top.data } L.num_ = some out := by
      rw [← h]
      simp only [Forward_cpu, hmode]
    exact sameFrame_trans (imageLoop_frame h') (sameFrame_data _)
  | PIXEL =>
    have h' : pixelLoop L b1
        { top with data := caffe_copy b0.count b0.data top.data } L.num_ = some out := by
      rw [← h]
      simp only [Forward_cpu, hmode]
    exact sameFrame_trans (pixelLoop_frame h') (sameFrame_data _)

lemma Reshape_mode_shape {L : BiasChannelLayer} {b0 b1 top : Blob}
    {L' : BiasChannelLayer} {top' : Blob}
    (h : Reshape L b0 b1 top = some (L', top')) :
    (L.label_type = LabelType.IMAGE → b1.height = 1 ∧ b1.width = 1) ∧
    (L.label_type = LabelType.PIXEL →
      b1.channels = 1 ∧ b1.height = b0.height ∧ b1.width = b0.width) := by
  obtain ⟨_, _, _, _, _, _, _, _, _, _, _, _, _, _, _, _, _, himg, hpix⟩ :=
    Reshape_spec h
  exact ⟨himg, hpix⟩

/-- The rational `27/10 = 2.7`, written in lowest terms. -/
def ratTwoPointSeven : ℚ := ⟨27, 10, by norm_num, by norm_num⟩

/-- The rational `-1/2 = -0.5`, written in lowest terms. -/
def ratNegHalf : ℚ := ⟨-1, 2, by norm_num, by norm_num⟩

/-! ## The claims -/

/-- C1: in IMAGE mode, for every configuration accepted by `LayerSetUp`
(whose ignore set is the configured list plus the padding sentinel `-1`)
and every activation/label/top shape accepted by `Reshape`, if every
non-ignored truncated label entry lies in `[0, channels)` then the forward
pass succeeds and `output[n,c,h,w] = activation[n,c,h,w] + k(n,c) * bias(c)`,
where `k(n,c) = specImageCount` counts the label slots naming channel `c`
that are not in the ignore set (so duplicate slots accumulate additively)
and `bias(c)` is `bg_bias` for channel `0` and `fg_bias` otherwise. -/
theorem C1_image_forward_bias (p : BiasChannelParam) (b0 b1 top : Blob)
    (L0 L : BiasChannelLayer) (top1 : Blob)
    (hmode : p.label_type = LabelType.IMAGE)
    (hsetup : LayerSetUp p = some L0)
    (hreshape : Reshape L0 b0 b1 top = some (L, top1))
    (hval : ∀ n, n < b0.num → ∀ j, j < b1.channels →
      imgLabel b1 n j ∉ L.ignore_label_ →
      0 ≤ imgLabel b1 n j ∧ imgLabel b1 n j < (b0.channels : Int)) :
    (∀ l : Int, l ∈ L.ignore_label_ ↔ l = -1 ∨ l ∈ p.ignore_label) ∧
    ∃ out, Forward_cpu L b0 b1 top1 = some out ∧
      ∀ n, n < b0.num → ∀ c, c < b0.channels → ∀ h, h < b0.height →
        ∀ w, w < b0.width →
        out.data (b0.offset n c h w) = b0.data (b0.offset n c h w) +
          (specImageCount L b1 n c : ℚ) *
            (if c = 0 then L.bg_bias_ else L.fg_bias_) := by
  unfold LayerSetUp at hsetup
  split_ifs at hsetup with hbias
  obtain rfl := Option.some_inj.mp hsetup
  obtain ⟨hn, hc, hh, hw, hml, hbg, hfg, hlt, hig, htn, htc, hth, htw, hdat,
    hdif, hb1n, hb1c, himgS, hpixS⟩ := Reshape_spec hreshape
  constructor
  · intro l
    rw [hig]
    simp
  · have hval' : ∀ n, n < L.num_ → ∀ j, j < L.max_labels_ →
        imgLabel b1 n j ∉ L.ignore_label_ →
        0 ≤ imgLabel b1 n j ∧ imgLabel b1 n j < (L.channels_ : Int) := by
      intro n hn' j hj hig'
      rw [hc]
      exact hval n (hn ▸ hn') j (hml ▸ hj) hig'
    obtain ⟨out, hfwd, hframe, hcell, hout⟩ :=
      Forward_cpu_image_spec L b0 b1 top1 (hlt.trans hmode) hn hc hh hw htc hth
        htw hval'
    exact ⟨out, hfwd, hcell⟩

/-- C2: in PIXEL mode, for every configuration accepted by `LayerSetUp` and
shapes accepted by `Reshape`, if every non-ignored truncated label entry
lies in `[0, channels)` then the forward pass succeeds and returns a copy
of the activation where each position with an ignored label is unchanged, a
`0` label adds `bg_bias` to channel `0` only, and a label `0 < l < C` adds
`bg_bias` to channel `0` and `fg_bias` to channel `l` at that position
(`specPixelInc`) — unlike image mode, a foreground-labeled pixel biases
both the background channel and its own channel. -/
theorem C2_pixel_forward_bias (p : BiasChannelParam) (b0 b1 top : Blob)
    (L0 L : BiasChannelLayer) (top1 : Blob)
    (hmode : p.label_type = LabelType.PIXEL)
    (hsetup : LayerSetUp p = some L0)
    (hreshape : Reshape L0 b0 b1 top = some (L, top1))
    (hval : ∀ n, n < b0.num → ∀ q, q < b0.height * b0.width →
      pixLabel b1 n q ∉ L.ignore_label_ →
      0 ≤ pixLabel b1 n q ∧ pixLabel b1 n q < (b0.channels : Int)) :
    ∃ out, Forward_cpu L b0 b1 top1 = some out ∧
      ∀ n, n < b0.num → ∀ c, c < b0.channels → ∀ h, h < b0.height →
        ∀ w, w < b0.width →
        out.data (b0.offset n c h w) = b0.data (b0.offset n c h w) +
          specPixelInc L c (truncInt (b1.data (b1.offset n 0 h w))) := by
  unfold LayerSetUp at hsetup
  split_ifs at hsetup with hbias
  obtain rfl := Option.some_inj.mp hsetup
  obtain ⟨hn, hc, hh, hw, hml, hbg, hfg, hlt, hig, htn, htc, hth, htw, hdat,
    hdif, hb1n, hb1c, himgS, hpixS⟩ := Reshape_spec hreshape
  obtain ⟨hb1ch, hb1h, hb1w⟩ := hpixS hmode
  have hval' : ∀ n, n < L.num_ → ∀ q, q < L.height_ * L.width_ →
      pixLabel b1 n q ∉ L.ignore_label_ →
      0 ≤ pixLabel b1 n q ∧ pixLabel b1 n q < (L.channels_ : Int) := by
    intro n hn' q hq hig'
    rw [hc]
    rw [hh, hw] at hq
    exact hval n (hn ▸ hn') q hq hig'
  obtain ⟨out, hfwd, hframe, hcell, hout⟩ :=
    Forward_cpu_pixel_spec L b0 b1 top1 (hlt.trans hmode) hn hc hh hw htc hth
      htw hval'
  refine ⟨out, hfwd, ?_⟩
  intro n hn' c hc' h hh' w hw'
  have hofs : b1.offset n 0 h w = b1.offset n 0 0 0 + (h * b0.width + w) := by
    unfold Blob.offset
    rw [hb1ch, hb1h, hb1w]
    ring
  have hlabel : truncInt (b1.data (b1.offset n 0 h w)) =
      pixLabel b1 n (h * b0.width + w) := by
    unfold pixLabel
    rw [hofs]
  rw [hlabel]
  exact hcell n hn' c hc' h hh' w hw'

/-- C3: in both modes, a label value that is not in the ignore set and lies
outside the valid range (for IMAGE mode outside `[0, channels)`, for PIXEL
mode outside `{0} ∪ (0, channels)`) makes the forward pass abort fatally
(`none`): it is never clamped, skipped or treated as a valid channel. -/
theorem C3_invalid_label_fatal (L : BiasChannelLayer) (b0 b1 top : Blob) :
    (L.label_type = LabelType.IMAGE →
      (∃ n, n < L.num_ ∧ ∃ j, j < L.max_labels_ ∧
        imgLabel b1 n j ∉ L.ignore_label_ ∧
        ¬(0 ≤ imgLabel b1 n j ∧ imgLabel b1 n j < (L.channels_ : Int))) →
      Forward_cpu L b0 b1 top = none) ∧
    (L.label_type = LabelType.PIXEL →
      (∃ n, n < L.num_ ∧ ∃ q, q < L.height_ * L.width_ ∧
        pixLabel b1 n q ∉ L.ignore_label_ ∧
        ¬(pixLabel b1 n q = 0 ∨
          (0 < pixLabel b1 n q ∧ pixLabel b1 n q < (L.channels_ : Int)))) →
      Forward_cpu L b0 b1 top = none) :=
  ⟨fun hm hbad => Forward_cpu_image_none hm hbad,
   fun hm hbad => Forward_cpu_pixel_none hm hbad⟩

/-- C4: for every input accepted by `Reshape`, a successful forward pass
returns an output blob with exactly the activation blob's shape
`(num, channels, height, width)`, in both label modes and regardless of the
label content. -/
theorem C4_output_shape (L0 L : BiasChannelLayer) (b0 b1 top top1 out : Blob)
    (hreshape : Reshape L0 b0 b1 top = some (L, top1))
    (hfwd : Forward_cpu L b0 b1 top1 = some out) :
    out.num = b0.num ∧ out.channels = b0.channels ∧
    out.height = b0.height ∧ out.width = b0.width := by
  obtain ⟨hn, hc, hh, hw, hml, hbg, hfg, hlt, hig, htn, htc, hth, htw, hdat,
    hdif, hb1n, hb1c, himgS, hpixS⟩ := Reshape_spec hreshape
  obtain ⟨f1, f2, f3, f4, f5⟩ := Forward_cpu_frame hfwd
  exact ⟨f1.trans htn, f2.trans htc, f3.trans hth, f4.trans htw⟩

/-- C5: the forward pass never mutates the activation or label blob: all
writes go to the caller's top blob, so after a successful call the bottom
blobs of the network state are unchanged and even the top blob's gradient
buffer is untouched. -/
theorem C5_inputs_untouched (L0 L : BiasChannelLayer) (s : Net) (top1 : Blob)
    (s' : Net)
    (hreshape : Reshape L0 s.bottom0 s.bottom1 s.top = some (L, top1))
    (hfwd : ForwardNet L { s with top := top1 } = some s') :
    s'.bottom0 = s.bottom0 ∧ s'.bottom1 = s.bottom1 ∧
    s'.top.diff = s.top.diff := by
  unfold ForwardNet at hfwd
  obtain ⟨t, ht, hs'⟩ := Option.map_eq_some'.mp hfwd
  obtain ⟨hn, hc, hh, hw, hml, hbg, hfg, hlt, hig, htn, htc, hth, htw, hdat,
    hdif, hb1n, hb1c, himgS, hpixS⟩ := Reshape_spec hreshape
  subst hs'
  refine ⟨rfl, rfl, ?_⟩
  exact ((Forward_cpu_frame ht).2.2.2.2).trans hdif

/-- C6: when the label input requests no gradient, the backward pass (both
reference and accelerated, which are identical) succeeds; if the activation
gradient is requested it copies the top gradient into the activation's
gradient buffer bit for bit (identity pass-through), and if it is not
requested the activation blob is returned entirely unchanged. -/
theorem C6_backward_identity (L : BiasChannelLayer) (top b0 : Blob)
    (pd : List Bool) (hlabel : pd.getD 1 false = false) :
    Backward_gpu L top b0 pd = Backward_cpu L top b0 pd ∧
    ∃ b', Backward_cpu L top b0 pd = some b' ∧
      b'.data = b0.data ∧
      (pd.getD 0 false = true →
        (∀ i, i < b0.count → b'.diff i = top.diff i) ∧
        (∀ i, b0.count ≤ i → b'.diff i = b0.diff i)) ∧
      (pd.getD 0 false = false → b' = b0) := by
  refine ⟨rfl, ?_⟩
  by_cases h0 : pd.getD 0 false = true
  · refine ⟨{ b0 with diff := caffe_copy b0.count top.diff b0.diff }, ?_, rfl,
      ?_, ?_⟩
    · unfold Backward_cpu
      rw [hlabel, h0]
      simp
    · intro _
      constructor
      · intro i hi
        show caffe_copy b0.count top.diff b0.diff i = top.diff i
        simp only [caffe_copy]
        rw [if_pos hi]
      · intro i hi
        show caffe_copy b0.count top.diff b0.diff i = b0.diff i
        simp only [caffe_copy]
        rw [if_neg (by omega)]
    · intro h0'
      exact Bool.noConfusion (h0'.symm.trans h0)
  · have h0' : pd.getD 0 false = false := by
      cases hx : pd.getD 0 false
      · rfl
      · exact absurd hx h0
    refine ⟨b0, ?_, rfl, fun hcontra => absurd hcontra h0, fun _ => rfl⟩
    unfold Backward_cpu
    rw [hlabel, h0']
    simp

/-- C7: a backward call that requests a gradient on the label input aborts
fatally (`none`) on both the reference and the accelerated path, before any
activation gradient is written: no numeric result is ever produced. -/
theorem C7_label_gradient_fatal (L : BiasChannelLayer) (top b0 : Blob)
    (pd : List Bool) (hlabel : pd.getD 1 false = true) :
    Backward_cpu L top b0 pd = none ∧ Backward_gpu L top b0 pd = none := by
  constructor
  · unfold Backward_cpu
    rw [hlabel]
    simp
  · unfold Backward_gpu
    rw [hlabel]
    simp

/-- C8: the shape-derivation step succeeds exactly when the label blob's
batch size matches the activation's, the label has at least one channel,
and the mode-specific shape check holds (IMAGE: 1×1 spatial; PIXEL: one
channel and the activation's spatial dims); on success the top blob is
reshaped to the activation's `(num, channels, height, width)`. -/
theorem C8_reshape_checks (L : BiasChannelLayer) (b0 b1 top : Blob) :
    ((Reshape L b0 b1 top).isSome = true ↔
      (b1.num = b0.num ∧ 1 ≤ b1.channels ∧
        (L.label_type = LabelType.IMAGE → b1.height = 1 ∧ b1.width = 1) ∧
        (L.label_type = LabelType.PIXEL →
          b1.channels = 1 ∧ b1.height = b0.height ∧ b1.width = b0.width))) ∧
    (∀ L' top', Reshape L b0 b1 top = some (L', top') →
      top'.num = b0.num ∧ top'.channels = b0.channels ∧
      top'.height = b0.height ∧ top'.width = b0.width) := by
  refine ⟨Reshape_isSome_iff L b0 b1 top, ?_⟩
  intro L' top' h
  obtain ⟨hn, hc, hh, hw, hml, hbg, hfg, hlt, hig, htn, htc, hth, htw, hdat,
    hdif, hb1n, hb1c, himgS, hpixS⟩ := Reshape_spec h
  exact ⟨htn, htc, hth, htw⟩

/-- C9: the accelerated forward path returns exactly the reference forward
path's result on every configuration and input: PIXEL mode delegates to the
reference code verbatim, and the IMAGE-mode scatter loop performs the same
per-slot scalar additions. -/
theorem C9_gpu_matches_cpu (L : BiasChannelLayer) (b0 b1 top : Blob) :
    Forward_gpu L b0 b1 top = Forward_cpu L b0 b1 top :=
  Forward_gpu_eq_cpu L b0 b1 top

/-- C10: label entries are read through `truncInt` (C++ truncation toward
zero) before any ignore-set or range check, so the forward pass cannot
distinguish label buffers with equal truncations; in particular `2.7` is
read as channel `2`, and `-0.5` truncates to `0` (the background channel),
not to the `-1` ignore sentinel. -/
theorem C10_label_truncation (L : BiasChannelLayer) (b0 b1 b1' top : Blob)
    (hc : b1.channels = b1'.channels) (hh : b1.height = b1'.height)
    (hw : b1.width = b1'.width)
    (hdata : ∀ i, truncInt (b1.data i) = truncInt (b1'.data i)) :
    Forward_cpu L b0 b1 top = Forward_cpu L b0 b1' top ∧
    ratTwoPointSeven = 27 / 10 ∧ truncInt ratTwoPointSeven = 2 ∧
    ratNegHalf = -(1 / 2) ∧ truncInt ratNegHalf = 0 ∧
    truncInt ratNegHalf ≠ -1 := by
  refine ⟨Forward_cpu_label_trunc_congr L b0 b1 b1' top hc hh hw hdata,
    ?_, by decide, ?_, by decide, by decide⟩
  · norm_num [ratTwoPointSeven, Rat.mk'_eq_divInt, Rat.divInt_eq_div]
  · norm_num [ratNegHalf, Rat.mk'_eq_divInt, Rat.divInt_eq_div]

/-! ## Concrete instances -/

/-- Activation blob `(1, 2, 1, 1)`, all zeros. -/
def wB0 : Blob := ⟨1, 2, 1, 1, fun _ => 0, fun _ => 0⟩

/-- Top blob `(1, 2, 1, 1)`, all zeros. -/
def wTop : Blob := ⟨1, 2, 1, 1, fun _ => 0, fun _ => 0⟩

/-- Label blob `(1, 1, 1, 1)` holding the label value `1`. -/
def wLbl1 : Blob := ⟨1, 1, 1, 1, fun _ => 1, fun _ => 0⟩

/-- Label blob `(1, 1, 1, 1)` holding the out-of-range label value `5`. -/
def wLblBad : Blob := ⟨1, 1, 1, 1, fun _ => 5, fun _ => 0⟩

/-- Label blob `(1, 1, 1, 1)` holding the fractional label value `-0.5`. -/
def wLblNegHalf : Blob := ⟨1, 1, 1, 1, fun _ => ratNegHalf, fun _ => 0⟩

/-- Label blob `(1, 1, 1, 1)` holding the label value `0`. -/
def wLblZero : Blob := ⟨1, 1, 1, 1, fun _ => 0, fun _ => 0⟩

/-- IMAGE-mode configuration: `bg_bias = 1`, `fg_bias = 2`, no extra
ignore labels. -/
def wParamImg : BiasChannelParam := ⟨1, 2, LabelType.IMAGE, []⟩

/-- PIXEL-mode configuration: `bg_bias = 1`, `fg_bias = 2`, no extra
ignore labels. -/
def wParamPix : BiasChannelParam := ⟨1, 2, LabelType.PIXEL, []⟩

/-- The layer state `LayerSetUp wParamImg` produces. -/
def wL0Img : BiasChannelLayer := ⟨1, 2, LabelType.IMAGE, [-1], 0, 0, 0, 0, 0⟩

/-- The layer state after `Reshape` on `wB0`/`wLbl1` in IMAGE mode. -/
def wLImg : BiasChannelLayer := ⟨1, 2, LabelType.IMAGE, [-1], 1, 2, 1, 1, 1⟩

/-- The layer state `LayerSetUp wParamPix` produces. -/
def wL0Pix : BiasChannelLayer := ⟨1, 2, LabelType.PIXEL, [-1], 0, 0, 0, 0, 0⟩

/-- The layer state after `Reshape` on `wB0`/`wLbl1` in PIXEL mode. -/
def wLPix : BiasChannelLayer := ⟨1, 2, LabelType.PIXEL, [-1], 1, 2, 1, 1, 1⟩

/-- Witness for C1 at a concrete IMAGE-mode input. -/
theorem C1_witness :
    (∀ l : Int, l ∈ wLImg.ignore_label_ ↔ l = -1 ∨ l ∈ wParamImg.ignore_label) ∧
    ∃ out, Forward_cpu wLImg wB0 wLbl1 wTop = some out ∧
      ∀ n, n < wB0.num → ∀ c, c < wB0.channels → ∀ h, h < wB0.height →
        ∀ w, w < wB0.width →
        out.data (wB0.offset n c h w) = wB0.data (wB0.offset n c h w) +
          (specImageCount wLImg wLbl1 n c : ℚ) *
            (if c = 0 then wLImg.bg_bias_ else wLImg.fg_bias_) :=
  C1_image_forward_bias wParamImg wB0 wLbl1 wTop wL0Img wLImg wTop rfl rfl rfl
    (fun n _ j _ _ =>
      show 0 ≤ truncInt 1 ∧ truncInt 1 < ((2 : Nat) : Int) by decide)

/-- Witness for C2 at a concrete PIXEL-mode input. -/
theorem C2_witness :
    ∃ out, Forward_cpu wLPix wB0 wLbl1 wTop = some out ∧
      ∀ n, n < wB0.num → ∀ c, c < wB0.channels → ∀ h, h < wB0.height →
        ∀ w, w < wB0.width →
        out.data (wB0.offset n c h w) = wB0.data (wB0.offset n c h w) +
          specPixelInc wLPix c (truncInt (wLbl1.data (wLbl1.offset n 0 h w))) :=
  C2_pixel_forward_bias wParamPix wB0 wLbl1 wTop wL0Pix wLPix wTop rfl rfl rfl
    (fun n _ q _ _ =>
      show 0 ≤ truncInt 1 ∧ truncInt 1 < ((2 : Nat) : Int) by decide)

/-- Witness for C3: the label value `5` (with 2 channels) aborts both modes. -/
theorem C3_witness :
    Forward_cpu wLImg wB0 wLblBad wTop = none ∧
    Forward_cpu wLPix wB0 wLblBad wTop = none :=
  ⟨(C3_invalid_label_fatal wLImg wB0 wLblBad wTop).1 rfl
      ⟨0, by decide, 0, by decide, by decide, by decide⟩,
   (C3_invalid_label_fatal wLPix wB0 wLblBad wTop).2 rfl
      ⟨0, by decide, 0, by decide, by decide, by decide⟩⟩

/-- Witness for C4 at a concrete IMAGE-mode input. -/
theorem C4_witness :
    ∃ out, Forward_cpu wLImg wB0 wLbl1 wTop = some out ∧
      (out.num = wB0.num ∧ out.channels = wB0.channels ∧
       out.height = wB0.height ∧ out.width = wB0.width) := by
  cases hfwd : Forward_cpu wLImg wB0 wLbl1 wTop with
  | none =>
    have hsome : (Forward_cpu wLImg wB0 wLbl1 wTop).isSome = true := rfl
    rw [hfwd] at hsome
    exact Bool.noConfusion hsome
  | some out =>
    exact ⟨out, rfl, C4_output_shape wL0Img wLImg wB0 wLbl1 wTop wTop out rfl hfwd⟩

/-- Witness for C5 at a concrete IMAGE-mode input. -/
theorem C5_witness :
    ∃ s', ForwardNet wLImg ⟨wB0, wLbl1, wTop⟩ = some s' ∧
      (s'.bottom0 = wB0 ∧ s'.bottom1 = wLbl1 ∧ s'.top.diff = wTop.diff) := by
  cases hfwd : ForwardNet wLImg ⟨wB0, wLbl1, wTop⟩ with
  | none =>
    have hsome : (ForwardNet wLImg ⟨wB0, wLbl1, wTop⟩).isSome = true := rfl
    rw [hfwd] at hsome
    exact Bool.noConfusion hsome
  | some s' =>
    exact ⟨s', rfl,
      C5_inputs_untouched wL0Img wLImg ⟨wB0, wLbl1, wTop⟩ wTop s' rfl hfwd⟩

/-- Witness for C6 with the activation gradient requested and the label
gradient not requested. -/
theorem C6_witness :
    Backward_gpu wLImg wTop wB0 [true, false] =
      Backward_cpu wLImg wTop wB0 [true, false] ∧
    ∃ b', Backward_cpu wLImg wTop wB0 [true, false] = some b' ∧
      b'.data = wB0.data ∧
      (([true, false] : List Bool).getD 0 false = true →
        (∀ i, i < wB0.count → b'.diff i = wTop.diff i) ∧
        (∀ i, wB0.count ≤ i → b'.diff i = wB0.diff i)) ∧
      (([true, false] : List Bool).getD 0 false = false → b' = wB0) :=
  C6_backward_identity wLImg wTop wB0 [true, false] rfl

/-- Witness for C7 with a gradient requested on the label input. -/
theorem C7_witness :
    Backward_cpu wLImg wTop wB0 [true, true] = none ∧
    Backward_gpu wLImg wTop wB0 [true, true] = none :=
  C7_label_gradient_fatal wLImg wTop wB0 [true, true] rfl

/-- Witness for C8 at a concrete IMAGE-mode input. -/
theorem C8_witness :
    (Reshape wLImg wB0 wLbl1 wTop).isSome = true ∧
    (∀ L' top', Reshape wLImg wB0 wLbl1 wTop = some (L', top') →
      top'.num = wB0.num ∧ top'.channels = wB0.channels ∧
      top'.height = wB0.height ∧ top'.width = wB0.width) :=
  ⟨(C8_reshape_checks wLImg wB0 wLbl1 wTop).1.mpr
     ⟨rfl, by decide, fun _ => ⟨rfl, rfl⟩, fun hpix => absurd hpix (by decide)⟩,
   (C8_reshape_checks wLImg wB0 wLbl1 wTop).2⟩

/-- Witness for C10: the label buffers `-0.5` and `0` truncate equally, so
the forward pass cannot tell them apart. -/
theorem C10_witness :
    Forward_cpu wLPix wB0 wLblNegHalf wTop = Forward_cpu wLPix wB0 wLblZero wTop ∧
    ratTwoPointSeven = 27 / 10 ∧ truncInt ratTwoPointSeven = 2 ∧
    ratNegHalf = -(1 / 2) ∧ truncInt ratNegHalf = 0 ∧
    truncInt ratNegHalf ≠ -1 :=
  C10_label_truncation wLPix wB0 wLblNegHalf wLblZero wTop rfl rfl rfl
    (fun i => show truncInt ratNegHalf = truncInt 0 by decide)

end BiasChannel
